import Mathlib

/-!
# Verification of the groceries inventory core (src/utils/database.py)

Shallow embedding of the inventory reconciliation subsystem: the SQLite
tables are modelled as lists of rows, each `cursor.execute` is a storage
operation that may raise `sqlite3.Error` (modelled by a fault index
`failAt`), and Python's `float(...)` parse of the quantity field is a
partial parse.  `conn.commit` commits the pending state; `rollback` (or
closing without commit) restores the state at call entry.
-/

/-- A row of the `inventory` table. -/
structure InvRow where
  item_name : String
  quantity : ℚ
  unit : String
  last_updated : ℕ
  last_updated_by : String
deriving DecidableEq, Repr

/-- A row of the append-only `transaction_log` table. -/
structure LogRow where
  item_name : String
  quantity_change : ℚ
  user_name : String
  transaction_time : ℕ
deriving DecidableEq, Repr

/-- The database: the two tables. -/
structure DBState where
  inventory : List InvRow
  log : List LogRow
deriving DecidableEq, Repr

/-- The `quantity` field of a batch item dictionary: absent, a value
`float` accepts, or a value `float` raises on (`ValueError`/`TypeError`). -/
inductive QField where
  | absent
  | num (q : ℚ)
  | bad
deriving DecidableEq, Repr

/-- One batch item `{name, quantity, unit}`. -/
structure Item where
  name : String
  quantity : QField
  unit : String
deriving DecidableEq, Repr

/-- `float(item.get("quantity", 0))`: absent defaults to `0`, a parseable
value is itself, an unparseable value raises (`none`). -/
def parseQ : QField → Option ℚ
  | .absent => some 0
  | .num q => some q
  | .bad => none

/-- Python's `str.lower()` (character-wise, as for the ASCII names used
here). -/
def strLower (s : String) : String := ⟨s.data.map Char.toLower⟩

/-- Python's `str.upper()` (character-wise). -/
def strUpper (s : String) : String := ⟨s.data.map Char.toUpper⟩

/-- Errors escaping a storage operation or the Python code itself. -/
inductive Err where
  | storage
  | py
deriving DecidableEq, Repr

/-- Result of a call that normally returns a boolean: either a returned
boolean, or a non-`sqlite3.Error` exception propagating to the caller. -/
inductive Outcome where
  | ok (b : Bool)
  | pyError
deriving DecidableEq, Repr

/-- Fault model: the index of the storage operation (counting
`cursor.execute` and `conn.commit` calls in order) that raises
`sqlite3.Error`; `none` means storage never fails. -/
abbrev Fault := Option ℕ

/-- Does the storage operation with index `n` raise? -/
def hits (failAt : Fault) (n : ℕ) : Bool := failAt = some n

/-- `SELECT quantity FROM inventory WHERE item_name = ?` (the schema makes
`item_name` unique; `fetchone` returns the first matching row). -/
def lookupQty (inv : List InvRow) (nm : String) : Option ℚ :=
  (inv.find? (fun r => r.item_name = nm)).map (·.quantity)

/-- `UPDATE inventory SET quantity = ?, last_updated = ?, last_updated_by
= ? WHERE item_name = ?`. -/
def updateRow (inv : List InvRow) (nm : String) (q : ℚ) (now : ℕ)
    (user : String) : List InvRow :=
  inv.map (fun r =>
    if r.item_name = nm then
      { r with quantity := q, last_updated := now, last_updated_by := user }
    else r)

/-- `INSERT INTO inventory (...) VALUES (...)`. -/
def insertRow (inv : List InvRow) (nm : String) (q : ℚ) (unit : String)
    (now : ℕ) (user : String) : List InvRow :=
  inv ++ [⟨nm, q, unit, now, user⟩]

/-- `log_transaction`: `INSERT INTO transaction_log ... VALUES (...)`. -/
def logRow (nm : String) (change : ℚ) (user : String) (now : ℕ) : LogRow :=
  ⟨nm, change, user, now⟩

/-- The `for item in items` loop of `update_inventory`, threading the
pending (uncommitted) state and the storage-operation counter.  Per item:
read the name and parse the quantity (a parse failure raises `Err.py`),
run the `SELECT` (one storage op), then per action: ADD runs an `INSERT`
or `UPDATE` followed by the log `INSERT`; USE skips an absent item
(`continue`) and otherwise runs the `UPDATE` followed by the log
`INSERT`; any other action falls through the `if/elif` doing nothing. -/
def runItems (action user : String) (now : ℕ) (failAt : Fault) :
    List Item → DBState → ℕ → Except Err (DBState × ℕ)
  | [], s, n => .ok (s, n)
  | it :: rest, s, n =>
    let nm := strLower it.name
    match parseQ it.quantity with
    | none => .error .py
    | some q =>
      if hits failAt n then .error .storage else
      let data := lookupQty s.inventory nm
      if strUpper action = "ADD" then
        if hits failAt (n + 1) then .error .storage else
        let inv' := match data with
          | none => insertRow s.inventory nm q it.unit now user
          | some old => updateRow s.inventory nm (old + q) now user
        if hits failAt (n + 2) then .error .storage else
        runItems action user now failAt rest
          ⟨inv', s.log ++ [logRow nm q user now]⟩ (n + 3)
      else if strUpper action = "USE" then
        match data with
        | none => runItems action user now failAt rest s (n + 1)
        | some old =>
          if hits failAt (n + 1) then .error .storage else
          if hits failAt (n + 2) then .error .storage else
          runItems action user now failAt rest
            ⟨updateRow s.inventory nm (max 0 (old - q)) now user,
             s.log ++ [logRow nm (-q) user now]⟩ (n + 3)
      else
        runItems action user now failAt rest s (n + 1)

/-- `update_inventory(action, items, user_name)` against committed state
`s`.  `connOk` models whether `create_connection` succeeds; `failAt` is
the fault schedule.  A storage error is caught: rollback and return
`False`.  A non-storage exception (quantity parse failure) propagates,
and closing the connection without commit discards the pending state. -/
def update_inventory (action : String) (items : List Item) (user : String)
    (s : DBState) (connOk : Bool) (now : ℕ) (failAt : Fault) :
    Outcome × DBState :=
  if !connOk then (.ok false, s)
  else
    match runItems action user now failAt items s 0 with
    | .error .storage => (.ok false, s)
    | .error .py => (.pyError, s)
    | .ok (s', n) =>
      if hits failAt n then (.ok false, s)
      else (.ok true, s')

/-- The fault-free meaning of the loop: the state all items committed
together would produce (`none` when a quantity fails to parse). -/
def applyItems (action user : String) (now : ℕ) :
    List Item → DBState → Option DBState
  | [], s => some s
  | it :: rest, s =>
    let nm := strLower it.name
    match parseQ it.quantity with
    | none => none
    | some q =>
      if strUpper action = "ADD" then
        let inv' := match lookupQty s.inventory nm with
          | none => insertRow s.inventory nm q it.unit now user
          | some old => updateRow s.inventory nm (old + q) now user
        applyItems action user now rest ⟨inv', s.log ++ [logRow nm q user now]⟩
      else if strUpper action = "USE" then
        match lookupQty s.inventory nm with
        | none => applyItems action user now rest s
        | some old =>
          applyItems action user now rest
            ⟨updateRow s.inventory nm (max 0 (old - q)) now user,
             s.log ++ [logRow nm (-q) user now]⟩
      else applyItems action user now rest s

/-- How many quantity mutations (ADD insert or update, USE decrement) the
batch applies, item by item against the evolving state. -/
def mutCount (action user : String) (now : ℕ) :
    List Item → DBState → ℕ
  | [], _ => 0
  | it :: rest, s =>
    let nm := strLower it.name
    match parseQ it.quantity with
    | none => 0
    | some q =>
      if strUpper action = "ADD" then
        let inv' := match lookupQty s.inventory nm with
          | none => insertRow s.inventory nm q it.unit now user
          | some old => updateRow s.inventory nm (old + q) now user
        1 + mutCount action user now rest ⟨inv', s.log ++ [logRow nm q user now]⟩
      else if strUpper action = "USE" then
        match lookupQty s.inventory nm with
        | none => mutCount action user now rest s
        | some old =>
          1 + mutCount action user now rest
            ⟨updateRow s.inventory nm (max 0 (old - q)) now user,
             s.log ++ [logRow nm (-q) user now]⟩
      else mutCount action user now rest s

/-- The comparison `ORDER BY item_name ASC` uses on result triples. -/
def byName (a b : String × ℚ × String) : Prop := a.1 ≤ b.1

instance : DecidableRel byName := fun a b => inferInstanceAs (Decidable (a.1 ≤ b.1))

instance : IsTotal (String × ℚ × String) byName := ⟨fun a b => le_total a.1 b.1⟩

instance : IsTrans (String × ℚ × String) byName := ⟨fun _ _ _ h h' => le_trans h h'⟩

/-- `query_all_inventory()`: `SELECT item_name, quantity, unit FROM
inventory WHERE quantity > 0 ORDER BY item_name ASC`.  A failed
connection returns `[]`, and a failed query (`sqlite3.Error`, modelled by
`queryFails`) is caught and also returns `[]`. -/
def query_all_inventory (s : DBState) (connOk : Bool) (queryFails : Bool) :
    List (String × ℚ × String) :=
  if !connOk then []
  else if queryFails then []
  else
    List.insertionSort byName
      (((s.inventory.filter (fun r => 0 < r.quantity)).map
        (fun r => (r.item_name, r.quantity, r.unit))))

/-- `find_similar_item(item_name, normalize_func)`.  The distinct existing
positive-quantity names are read first (`existing_items`); a failed
connection returns the lowercased input.  With no existing items the
lowercased input is returned.  With a normalization function, the first
existing name whose normalization equals the normalized input is returned,
else the normalized input.  Without one, the first case-insensitive exact
match is returned, else the lowercased input. -/
def find_similar_item (item_name : String)
    (normalize_func : Option (String → String))
    (existing_items : List String) (connOk : Bool) : String :=
  if !connOk then strLower item_name
  else if existing_items.isEmpty then strLower item_name
  else
    match normalize_func with
    | some f =>
      let normalized_new := f item_name
      match existing_items.find? (fun existing => f existing = normalized_new) with
      | some existing => existing
      | none => normalized_new
    | none =>
      let item_lower := strLower item_name
      match existing_items.find? (fun existing => item_lower = strLower existing) with
      | some existing => existing
      | none => item_lower

/-- The `for item_name, quantity, unit in items_to_clear` loop of
`clear_all_inventory`: one `transaction_log` `INSERT` per positive row,
each a storage operation that may raise. -/
def writeLogs (user : String) (now : ℕ) (failAt : Fault) :
    List InvRow → List LogRow → ℕ → Except Err (List LogRow × ℕ)
  | [], log, n => .ok (log, n)
  | r :: rest, log, n =>
    if hits failAt n then .error .storage else
    writeLogs user now failAt rest
      (log ++ [logRow r.item_name (-r.quantity) user now]) (n + 1)

/-- `clear_all_inventory(user_name)`.  Storage operations in order:
the `SELECT` of positive rows (op 0), one log `INSERT` per such row,
the `UPDATE` zeroing every row, the `DELETE` of zero-quantity rows, and
`commit`.  With no positive rows it returns `True` immediately; any
`sqlite3.Error` rolls the whole batch back and returns `False`. -/
def clear_all_inventory (user : String) (s : DBState) (connOk : Bool)
    (now : ℕ) (failAt : Fault) : Bool × DBState :=
  if !connOk then (false, s)
  else if hits failAt 0 then (false, s)
  else
    let items_to_clear := s.inventory.filter (fun r => 0 < r.quantity)
    if items_to_clear.isEmpty then (true, s)
    else
      match writeLogs user now failAt items_to_clear s.log 1 with
      | .error _ => (false, s)
      | .ok (log', n) =>
        if hits failAt n then (false, s)
        else
          let inv0 := s.inventory.map (fun r =>
            { r with quantity := 0, last_updated := now, last_updated_by := user })
          if hits failAt (n + 1) then (false, s)
          else
            let inv' := inv0.filter (fun r => ¬ r.quantity = 0)
            if hits failAt (n + 2) then (false, s)
            else (true, ⟨inv', log'⟩)

/-- One call of the persistence layer's mutators, with its environment
(connection success, clock, fault schedule). -/
inductive Call where
  | upd (action : String) (items : List Item) (user : String)
      (connOk : Bool) (now : ℕ) (failAt : Fault)
  | clear (user : String) (connOk : Bool) (now : ℕ) (failAt : Fault)

/-- The committed state a call leaves behind. -/
def runCall : Call → DBState → DBState
  | .upd a its u c n f, s => (update_inventory a its u s c n f).2
  | .clear u c n f, s => (clear_all_inventory u s c n f).2

/-- The committed state after a sequence of calls. -/
def runCalls (cs : List Call) (s : DBState) : DBState :=
  cs.foldl (fun s c => runCall c s) s

/-- Every inventory quantity is non-negative. -/
def NonNeg (s : DBState) : Prop := ∀ r ∈ s.inventory, 0 ≤ r.quantity

/-- The item's quantity field carries a non-negative value (an absent
field, defaulting to `0`, qualifies). -/
def itemOK (it : Item) : Prop := ∀ q, parseQ it.quantity = some q → 0 ≤ q

/-- Every update batch in the call carries non-negative quantities. -/
def callOK : Call → Prop
  | .upd _ its _ _ _ _ => ∀ it ∈ its, itemOK it
  | .clear _ _ _ _ => True

/-- The lowercased names of a batch, as `update_inventory` computes them. -/
def batchNames (items : List Item) : List String :=
  items.map (fun it => strLower it.name)

/-! ## Helper lemmas: the update path -/

@[simp] theorem hits_none (n : ℕ) : hits none n = false := by simp [hits]

theorem runItems_ok {action user : String} {now : ℕ} {failAt : Fault} :
    ∀ {items : List Item} {s : DBState} {n m : ℕ} {s' : DBState},
      runItems action user now failAt items s n = .ok (s', m) →
      applyItems action user now items s = some s' := by
  intro items
  induction items with
  | nil =>
    intro s n m s' h
    simp [runItems] at h
    simp [applyItems, h.1]
  | cons it rest ih =>
    intro s n m s' h
    simp only [runItems] at h
    simp only [applyItems]
    cases hp : parseQ it.quantity with
    | none => rw [hp] at h; simp at h
    | some q =>
      rw [hp] at h
      cases h0 : hits failAt n with
      | true => rw [h0] at h; simp at h
      | false =>
        rw [h0] at h
        simp only [Bool.false_eq_true, if_false] at h
        by_cases hA : strUpper action = "ADD"
        · simp only [hA, if_pos] at h ⊢
          cases h1 : hits failAt (n + 1) with
          | true => rw [h1] at h; simp at h
          | false =>
            rw [h1] at h
            simp only [Bool.false_eq_true, if_false] at h
            cases h2 : hits failAt (n + 2) with
            | true => rw [h2] at h; simp at h
            | false =>
              rw [h2] at h
              simp only [Bool.false_eq_true, if_false] at h
              exact ih h
        · simp only [hA, if_neg, if_false] at h ⊢
          by_cases hU : strUpper action = "USE"
          · simp only [hU, if_pos] at h ⊢
            cases hd : lookupQty s.inventory (strLower it.name) with
            | none => rw [hd] at h; exact ih h
            | some old =>
              rw [hd] at h
              cases h1 : hits failAt (n + 1) with
              | true => rw [h1] at h; simp at h
              | false =>
                rw [h1] at h
                simp only [Bool.false_eq_true, if_false] at h
                cases h2 : hits failAt (n + 2) with
                | true => rw [h2] at h; simp at h
                | false =>
                  rw [h2] at h
                  simp only [Bool.false_eq_true, if_false] at h
                  exact ih h
          · simp only [hU, if_neg, if_false] at h ⊢
            exact ih h

theorem runItems_fault_free {action user : String} {now : ℕ} :
    ∀ {items : List Item} {s : DBState} (n : ℕ),
      (∀ s', applyItems action user now items s = some s' →
        ∃ m, runItems action user now none items s n = .ok (s', m)) ∧
      (applyItems action user now items s = none →
        runItems action user now none items s n = .error .py) := by
  intro items
  induction items with
  | nil =>
    intro s n
    constructor
    · intro s' h
      simp [applyItems] at h
      simp [runItems, h]
    · intro h
      simp [applyItems] at h
  | cons it rest ih =>
    intro s n
    constructor
    · intro s' h
      simp only [applyItems] at h
      simp only [runItems, hits_none, Bool.false_eq_true, if_false]
      cases hp : parseQ it.quantity with
      | none => rw [hp] at h; simp at h
      | some q =>
        rw [hp] at h
        by_cases hA : strUpper action = "ADD"
        · simp only [hA, if_pos] at h ⊢
          exact (ih _).1 s' h
        · simp only [hA, if_neg, if_false] at h ⊢
          by_cases hU : strUpper action = "USE"
          · simp only [hU, if_pos] at h ⊢
            cases hd : lookupQty s.inventory (strLower it.name) with
            | none => rw [hd] at h; exact (ih _).1 s' h
            | some old => rw [hd] at h; exact (ih _).1 s' h
          · simp only [hU, if_neg, if_false] at h ⊢
            exact (ih _).1 s' h
    · intro h
      simp only [applyItems] at h
      simp only [runItems, hits_none, Bool.false_eq_true, if_false]
      cases hp : parseQ it.quantity with
      | none => rfl
      | some q =>
        rw [hp] at h
        by_cases hA : strUpper action = "ADD"
        · simp only [hA, if_pos] at h ⊢
          exact (ih _).2 h
        · simp only [hA, if_neg, if_false] at h ⊢
          by_cases hU : strUpper action = "USE"
          · simp only [hU, if_pos] at h ⊢
            cases hd : lookupQty s.inventory (strLower it.name) with
            | none => rw [hd] at h; exact (ih _).2 h
            | some old => rw [hd] at h; exact (ih _).2 h
          · simp only [hU, if_neg, if_false] at h ⊢
            exact (ih _).2 h

theorem applyItems_log_length {action user : String} {now : ℕ} :
    ∀ {items : List Item} {s s' : DBState},
      applyItems action user now items s = some s' →
      s'.log.length = s.log.length + mutCount action user now items s := by
  intro items
  induction items with
  | nil =>
    intro s s' h
    simp [applyItems] at h
    simp [mutCount, ← h]
  | cons it rest ih =>
    intro s s' h
    simp only [applyItems] at h
    simp only [mutCount]
    cases hp : parseQ it.quantity with
    | none => rw [hp] at h; simp at h
    | some q =>
      rw [hp] at h
      by_cases hA : strUpper action = "ADD"
      · simp only [hA, if_pos] at h ⊢
        have := ih h
        simp at this
        omega
      · simp only [hA, if_neg, if_false] at h ⊢
        by_cases hU : strUpper action = "USE"
        · simp only [hU, if_pos] at h ⊢
          cases hd : lookupQty s.inventory (strLower it.name) with
          | none => rw [hd] at h; exact ih h
          | some old =>
            rw [hd] at h
            have := ih h
            simp at this ⊢
            omega
        · simp only [hU, if_neg, if_false] at h ⊢
          exact ih h

theorem runItems_no_py {action user : String} {now : ℕ} {failAt : Fault} :
    ∀ {items : List Item} {s : DBState} {n : ℕ},
      (∀ it ∈ items, parseQ it.quantity ≠ none) →
      runItems action user now failAt items s n ≠ .error .py := by
  intro items
  induction items with
  | nil => intro s n _ h; simp [runItems] at h
  | cons it rest ih =>
    intro s n hall h
    simp only [runItems] at h
    cases hp : parseQ it.quantity with
    | none => exact hall it (by simp) hp
    | some q =>
      rw [hp] at h
      have hrest : ∀ it ∈ rest, parseQ it.quantity ≠ none :=
        fun x hx => hall x (by simp [hx])
      cases h0 : hits failAt n with
      | true => rw [h0] at h; simp at h
      | false =>
        rw [h0] at h
        simp only [Bool.false_eq_true, if_false] at h
        by_cases hA : strUpper action = "ADD"
        · simp only [hA, if_pos] at h
          cases h1 : hits failAt (n + 1) with
          | true => rw [h1] at h; simp at h
          | false =>
            rw [h1] at h
            simp only [Bool.false_eq_true, if_false] at h
            cases h2 : hits failAt (n + 2) with
            | true => rw [h2] at h; simp at h
            | false =>
              rw [h2] at h
              simp only [Bool.false_eq_true, if_false] at h
              exact ih hrest h
        · simp only [hA, if_neg, if_false] at h
          by_cases hU : strUpper action = "USE"
          · simp only [hU, if_pos] at h
            cases hd : lookupQty s.inventory (strLower it.name) with
            | none => rw [hd] at h; exact ih hrest h
            | some old =>
              rw [hd] at h
              cases h1 : hits failAt (n + 1) with
              | true => rw [h1] at h; simp at h
              | false =>
                rw [h1] at h
                simp only [Bool.false_eq_true, if_false] at h
                cases h2 : hits failAt (n + 2) with
                | true => rw [h2] at h; simp at h
                | false =>
                  rw [h2] at h
                  simp only [Bool.false_eq_true, if_false] at h
                  exact ih hrest h
          · simp only [hU, if_neg, if_false] at h
            exact ih hrest h

theorem applyItems_isSome {action user : String} {now : ℕ} :
    ∀ {items : List Item} {s : DBState},
      (∀ it ∈ items, parseQ it.quantity ≠ none) →
      ∃ s', applyItems action user now items s = some s' := by
  intro items
  induction items with
  | nil => intro s _; exact ⟨s, rfl⟩
  | cons it rest ih =>
    intro s hall
    simp only [applyItems]
    have hrest : ∀ it ∈ rest, parseQ it.quantity ≠ none :=
      fun x hx => hall x (by simp [hx])
    cases hp : parseQ it.quantity with
    | none => exact absurd hp (hall it (by simp))
    | some q =>
      by_cases hA : strUpper action = "ADD"
      · simp only [hA, if_pos]
        exact ih hrest
      · simp only [hA, if_neg, if_false]
        by_cases hU : strUpper action = "USE"
        · simp only [hU, if_pos]
          cases hd : lookupQty s.inventory (strLower it.name) with
          | none => exact ih hrest
          | some old => exact ih hrest
        · simp only [hU, if_neg, if_false]
          exact ih hrest

theorem update_state_cases (action user : String) (items : List Item)
    (s : DBState) (connOk : Bool) (now : ℕ) (failAt : Fault) :
    (update_inventory action items user s connOk now failAt).2 = s ∨
    applyItems action user now items s =
      some (update_inventory action items user s connOk now failAt).2 := by
  unfold update_inventory
  cases connOk with
  | false => simp
  | true =>
    simp only [Bool.not_true, Bool.false_eq_true, if_false]
    cases hr : runItems action user now failAt items s 0 with
    | error e => cases e <;> simp
    | ok p =>
      cases h0 : hits failAt p.2 with
      | true => simp [h0]
      | false =>
        right
        simp only [h0, Bool.false_eq_true, if_false]
        have hr' : runItems action user now failAt items s 0 = .ok (p.1, p.2) := by
          rw [hr]
        exact runItems_ok hr'

theorem update_not_ok_state (action user : String) (items : List Item)
    (s : DBState) (connOk : Bool) (now : ℕ) (failAt : Fault)
    (h : (update_inventory action items user s connOk now failAt).1 ≠ .ok true) :
    (update_inventory action items user s connOk now failAt).2 = s := by
  revert h
  unfold update_inventory
  cases connOk with
  | false => simp
  | true =>
    simp only [Bool.not_true, Bool.false_eq_true, if_false]
    cases hr : runItems action user now failAt items s 0 with
    | error e => cases e <;> simp
    | ok p =>
      cases h0 : hits failAt p.2 with
      | true => simp [h0]
      | false => simp [h0]

/-! ## Helper lemmas: rows -/

theorem mem_updateRow_of_ne {inv : List InvRow} {nm : String} {q : ℚ}
    {now : ℕ} {user : String} {r : InvRow} (hr : r ∈ inv)
    (hne : r.item_name ≠ nm) : r ∈ updateRow inv nm q now user := by
  have h := List.mem_map_of_mem
    (fun x => if x.item_name = nm then
      { x with quantity := q, last_updated := now, last_updated_by := user }
    else x) hr
  simp only [if_neg hne] at h
  exact h

theorem updateRow_quantity {inv : List InvRow} {nm : String} {q : ℚ}
    {now : ℕ} {user : String} :
    ∀ r ∈ updateRow inv nm q now user, r.item_name = nm → r.quantity = q := by
  intro r hr hname
  simp only [updateRow, List.mem_map] at hr
  obtain ⟨x, hx, hfx⟩ := hr
  by_cases hxn : x.item_name = nm
  · rw [← hfx]
    simp [hxn]
  · rw [← hfx] at hname
    simp only [if_neg hxn] at hname
    exact absurd hname hxn

theorem updateRow_name (inv : List InvRow) (nm : String) (q : ℚ)
    (now : ℕ) (user : String) :
    ∀ r ∈ inv, ∃ r' ∈ updateRow inv nm q now user, r'.item_name = r.item_name := by
  intro r hr
  by_cases hrn : r.item_name = nm
  · refine ⟨{ r with quantity := q, last_updated := now, last_updated_by := user },
      ?_, rfl⟩
    have h := List.mem_map_of_mem
      (fun x => if x.item_name = nm then
        { x with quantity := q, last_updated := now, last_updated_by := user }
      else x) hr
    simp only [if_pos hrn] at h
    exact h
  · exact ⟨r, mem_updateRow_of_ne hr hrn, rfl⟩

theorem nonneg_updateRow {inv : List InvRow} {nm : String} {q : ℚ}
    {now : ℕ} {user : String} (hinv : ∀ r ∈ inv, 0 ≤ r.quantity)
    (hq : 0 ≤ q) : ∀ r ∈ updateRow inv nm q now user, 0 ≤ r.quantity := by
  intro r hr
  simp only [updateRow, List.mem_map] at hr
  obtain ⟨x, hx, hfx⟩ := hr
  by_cases hxn : x.item_name = nm
  · rw [← hfx]; simp [hxn, hq]
  · rw [← hfx]; simp only [if_neg hxn]; exact hinv x hx

theorem lookupQty_nonneg {inv : List InvRow} {nm : String} {old : ℚ}
    (hinv : ∀ r ∈ inv, 0 ≤ r.quantity) (h : lookupQty inv nm = some old) :
    0 ≤ old := by
  simp only [lookupQty, Option.map_eq_some'] at h
  obtain ⟨r, hr, hq⟩ := h
  rw [← hq]
  exact hinv r (List.mem_of_find?_eq_some hr)

/-! ## Helper lemmas: invariants of the fault-free application -/

theorem applyItems_nonneg {action user : String} {now : ℕ} :
    ∀ {items : List Item} {s s' : DBState},
      (∀ it ∈ items, itemOK it) →
      applyItems action user now items s = some s' →
      NonNeg s → NonNeg s' := by
  intro items
  induction items with
  | nil =>
    intro s s' _ h hs
    simp [applyItems] at h
    rwa [← h]
  | cons it rest ih =>
    intro s s' hall h hs
    simp only [applyItems] at h
    have hrest : ∀ x ∈ rest, itemOK x := fun x hx => hall x (by simp [hx])
    cases hp : parseQ it.quantity with
    | none => rw [hp] at h; simp at h
    | some q =>
      rw [hp] at h
      have hq : 0 ≤ q := hall it (by simp) q hp
      by_cases hA : strUpper action = "ADD"
      · simp only [hA, if_pos] at h
        cases hd : lookupQty s.inventory (strLower it.name) with
        | none =>
          rw [hd] at h
          refine ih hrest h ?_
          intro r hr
          simp only [insertRow, List.mem_append, List.mem_singleton] at hr
          rcases hr with hr | hr
          · exact hs r hr
          · rw [hr]; exact hq
        | some old =>
          rw [hd] at h
          refine ih hrest h ?_
          exact nonneg_updateRow hs (add_nonneg (lookupQty_nonneg hs hd) hq)
      · simp only [hA, if_neg, if_false] at h
        by_cases hU : strUpper action = "USE"
        · simp only [hU, if_pos] at h
          cases hd : lookupQty s.inventory (strLower it.name) with
          | none => rw [hd] at h; exact ih hrest h hs
          | some old =>
            rw [hd] at h
            refine ih hrest h ?_
            exact nonneg_updateRow hs (le_max_left 0 (old - q))
        · simp only [hU, if_neg, if_false] at h
          exact ih hrest h hs

theorem applyItems_frame {action user : String} {now : ℕ} :
    ∀ {items : List Item} {s s' : DBState},
      applyItems action user now items s = some s' →
      ∀ r ∈ s.inventory, r.item_name ∉ batchNames items → r ∈ s'.inventory := by
  intro items
  induction items with
  | nil =>
    intro s s' h r hr _
    simp [applyItems] at h
    rwa [← h]
  | cons it rest ih =>
    intro s s' h r hr hnotin
    simp only [batchNames, List.map_cons, List.mem_cons, not_or] at hnotin
    obtain ⟨hne, hrest⟩ := hnotin
    have hrest' : r.item_name ∉ batchNames rest := by simpa [batchNames] using hrest
    simp only [applyItems] at h
    cases hp : parseQ it.quantity with
    | none => rw [hp] at h; simp at h
    | some q =>
      rw [hp] at h
      by_cases hA : strUpper action = "ADD"
      · simp only [hA, if_pos] at h
        cases hd : lookupQty s.inventory (strLower it.name) with
        | none =>
          rw [hd] at h
          exact ih h r (by simp [insertRow, hr]) hrest'
        | some old =>
          rw [hd] at h
          exact ih h r (mem_updateRow_of_ne hr hne) hrest'
      · simp only [hA, if_neg, if_false] at h
        by_cases hU : strUpper action = "USE"
        · simp only [hU, if_pos] at h
          cases hd : lookupQty s.inventory (strLower it.name) with
          | none => rw [hd] at h; exact ih h r hr hrest'
          | some old =>
            rw [hd] at h
            exact ih h r (mem_updateRow_of_ne hr hne) hrest'
        · simp only [hU, if_neg, if_false] at h
          exact ih h r hr hrest'

theorem applyItems_names {action user : String} {now : ℕ} :
    ∀ {items : List Item} {s s' : DBState},
      applyItems action user now items s = some s' →
      ∀ r ∈ s.inventory, ∃ r' ∈ s'.inventory, r'.item_name = r.item_name := by
  intro items
  induction items with
  | nil =>
    intro s s' h r hr
    simp [applyItems] at h
    exact ⟨r, by rw [← h]; exact hr, rfl⟩
  | cons it rest ih =>
    intro s s' h r hr
    simp only [applyItems] at h
    cases hp : parseQ it.quantity with
    | none => rw [hp] at h; simp at h
    | some q =>
      rw [hp] at h
      by_cases hA : strUpper action = "ADD"
      · simp only [hA, if_pos] at h
        cases hd : lookupQty s.inventory (strLower it.name) with
        | none =>
          rw [hd] at h
          exact ih h r (by simp [insertRow, hr])
        | some old =>
          rw [hd] at h
          obtain ⟨rm, hrm, hname⟩ :=
            updateRow_name s.inventory (strLower it.name) (old + q) now user r hr
          obtain ⟨r', hr', hname'⟩ := ih h rm hrm
          exact ⟨r', hr', by rw [hname', hname]⟩
      · simp only [hA, if_neg, if_false] at h
        by_cases hU : strUpper action = "USE"
        · simp only [hU, if_pos] at h
          cases hd : lookupQty s.inventory (strLower it.name) with
          | none => rw [hd] at h; exact ih h r hr
          | some old =>
            rw [hd] at h
            obtain ⟨rm, hrm, hname⟩ :=
              updateRow_name s.inventory (strLower it.name) (0 ⊔ (old - q)) now user r hr
            obtain ⟨r', hr', hname'⟩ := ih h rm hrm
            exact ⟨r', hr', by rw [hname', hname]⟩
        · simp only [hU, if_neg, if_false] at h
          exact ih h r hr

/-! ## Helper lemmas: the clear path -/

theorem writeLogs_none (user : String) (now : ℕ) :
    ∀ (rows : List InvRow) (log : List LogRow) (n : ℕ),
      writeLogs user now none rows log n =
        .ok (log ++ rows.map (fun r => logRow r.item_name (-r.quantity) user now),
          n + rows.length) := by
  intro rows
  induction rows with
  | nil => intro log n; simp [writeLogs]
  | cons r rest ih =>
    intro log n
    simp only [writeLogs, hits_none, Bool.false_eq_true, if_false, ih,
      List.map_cons, List.length_cons, List.append_assoc, List.singleton_append,
      Except.ok.injEq, Prod.mk.injEq, true_and]
    omega

theorem clear_inv_filter_empty (inv : List InvRow) (user : String) (now : ℕ) :
    ((inv.map (fun r =>
      { r with quantity := (0:ℚ), last_updated := now, last_updated_by := user })).filter
      (fun r => ¬ r.quantity = 0)) = [] := by
  induction inv with
  | nil => simp
  | cons r rest ih => simp [ih]

theorem clear_none_spec (user : String) (s : DBState) (now : ℕ) :
    clear_all_inventory user s true now none =
      if (s.inventory.filter (fun r => 0 < r.quantity)).isEmpty then (true, s)
      else (true, ⟨[], s.log ++ (s.inventory.filter (fun r => 0 < r.quantity)).map
        (fun r => logRow r.item_name (-r.quantity) user now)⟩) := by
  unfold clear_all_inventory
  simp only [Bool.not_true, hits_none, Bool.false_eq_true, if_false]
  by_cases he : (s.inventory.filter (fun r => 0 < r.quantity)).isEmpty
  · simp [he]
  · simp only [he, Bool.false_eq_true, if_false]
    rw [writeLogs_none]
    simp [clear_inv_filter_empty]

theorem clear_false_state (user : String) (s : DBState) (connOk : Bool)
    (now : ℕ) (failAt : Fault) :
    (clear_all_inventory user s connOk now failAt).1 = false →
    (clear_all_inventory user s connOk now failAt).2 = s := by
  unfold clear_all_inventory
  dsimp only
  split
  · simp
  · split
    · simp
    · split
      · simp
      · split
        · simp
        · split
          · simp
          · split
            · simp
            · split
              · simp
              · simp

theorem clear_state_cases (user : String) (s : DBState) (connOk : Bool)
    (now : ℕ) (failAt : Fault) :
    (clear_all_inventory user s connOk now failAt).2 = s ∨
    (clear_all_inventory user s connOk now failAt).2.inventory = [] := by
  unfold clear_all_inventory
  dsimp only
  split
  · simp
  · split
    · simp
    · split
      · simp
      · split
        · simp
        · split
          · simp
          · split
            · simp
            · split
              · simp
              · right
                simp [clear_inv_filter_empty]

/-! ## Helper lemmas: dispatch of `update_inventory` -/

theorem update_conn_fail (action user : String) (items : List Item)
    (s : DBState) (now : ℕ) (failAt : Fault) :
    update_inventory action items user s false now failAt = (.ok false, s) := rfl

theorem update_none_not_false (action user : String) (items : List Item)
    (s : DBState) (now : ℕ) :
    (update_inventory action items user s true now none).1 ≠ .ok false := by
  unfold update_inventory
  cases happ : applyItems action user now items s with
  | none =>
    rw [(runItems_fault_free 0).2 happ]
    simp
  | some s' =>
    obtain ⟨m, hrun⟩ := (runItems_fault_free 0).1 s' happ
    rw [hrun]
    simp

theorem update_none_ok (action user : String) (items : List Item)
    (s : DBState) (now : ℕ)
    (hall : ∀ it ∈ items, parseQ it.quantity ≠ none) :
    (update_inventory action items user s true now none).1 = .ok true := by
  unfold update_inventory
  obtain ⟨s', happ⟩ := applyItems_isSome hall (s := s)
  obtain ⟨m, hrun⟩ := (runItems_fault_free 0).1 s' happ
  rw [hrun]
  simp

theorem update_no_py (action user : String) (items : List Item)
    (s : DBState) (connOk : Bool) (now : ℕ) (failAt : Fault)
    (hall : ∀ it ∈ items, parseQ it.quantity ≠ none) :
    (update_inventory action items user s connOk now failAt).1 ≠ .pyError := by
  unfold update_inventory
  cases connOk with
  | false => simp
  | true =>
    simp only [Bool.not_true, Bool.false_eq_true, if_false]
    cases hr : runItems action user now failAt items s 0 with
    | error e =>
      cases e with
      | storage => simp
      | py => exact absurd hr (runItems_no_py hall)
    | ok p =>
      cases h0 : hits failAt p.2 with
      | true => simp [h0]
      | false => simp [h0]

/-! ## Claims -/

/-- C1: `update_inventory` is atomic: the committed state is either the
entry state (in particular, on any storage failure mid-batch nothing of
the batch is committed) or the state in which every item's inventory
change together with its transaction-log entry is applied; and in the
committed batch each applied quantity mutation (ADD insert or update,
USE decrement) appends exactly one `transaction_log` row in the same
unit of work. -/
theorem update_inventory_atomic_audit (action user : String)
    (items : List Item) (s : DBState) (connOk : Bool) (now : ℕ)
    (failAt : Fault) :
    ((update_inventory action items user s connOk now failAt).2 = s ∨
      applyItems action user now items s =
        some (update_inventory action items user s connOk now failAt).2) ∧
    (∀ s', applyItems action user now items s = some s' →
      s'.log.length = s.log.length + mutCount action user now items s) :=
  ⟨update_state_cases action user items s connOk now failAt,
   fun _ h => applyItems_log_length h⟩

/-- Witness for C1 at a concrete input: an ADD of 10 telur on the empty
store commits the insert together with exactly one log row. -/
theorem update_inventory_atomic_audit_witness :
    ((update_inventory "ADD" [⟨"telur", .num 10, "butir"⟩] "andi"
        ⟨[], []⟩ true 0 none).2 = ⟨[], []⟩ ∨
      applyItems "ADD" "andi" 0 [⟨"telur", .num 10, "butir"⟩] ⟨[], []⟩ =
        some (update_inventory "ADD" [⟨"telur", .num 10, "butir"⟩] "andi"
          ⟨[], []⟩ true 0 none).2) ∧
    (DBState.mk [⟨"telur", 10, "butir", 0, "andi"⟩]
        [⟨"telur", 10, "andi", 0⟩]).log.length =
      (DBState.mk [] []).log.length +
        mutCount "ADD" "andi" 0 [⟨"telur", .num 10, "butir"⟩] ⟨[], []⟩ :=
  ⟨(update_inventory_atomic_audit "ADD" "andi" [⟨"telur", .num 10, "butir"⟩]
      ⟨[], []⟩ true 0 none).1,
   (update_inventory_atomic_audit "ADD" "andi" [⟨"telur", .num 10, "butir"⟩]
      ⟨[], []⟩ true 0 none).2
    ⟨[⟨"telur", 10, "butir", 0, "andi"⟩], [⟨"telur", 10, "andi", 0⟩]⟩
    (by simp +decide [applyItems, parseQ, strUpper, strLower, lookupQty,
      insertRow, logRow, List.find?])⟩

/-- C2: a USE of requested amount `u` on an item present with stored
quantity `q` commits `max 0 (q - u)` as the stored quantity and appends
exactly one transaction-log row recording `-u`, the requested amount,
not the clamped delta. -/
theorem use_clamps_quantity_and_logs_requested (name unit user : String)
    (u q : ℚ) (s : DBState) (now : ℕ)
    (h : lookupQty s.inventory (strLower name) = some q) :
    (update_inventory "USE" [⟨name, .num u, unit⟩] user s true now none).1 =
      .ok true ∧
    (∀ row ∈ (update_inventory "USE" [⟨name, .num u, unit⟩] user s true now
        none).2.inventory,
      row.item_name = strLower name → row.quantity = max 0 (q - u)) ∧
    (update_inventory "USE" [⟨name, .num u, unit⟩] user s true now none).2.log =
      s.log ++ [logRow (strLower name) (-u) user now] := by
  have hrun : update_inventory "USE" [⟨name, .num u, unit⟩] user s true now none =
      (.ok true, ⟨updateRow s.inventory (strLower name) (max 0 (q - u)) now user,
        s.log ++ [logRow (strLower name) (-u) user now]⟩) := by
    unfold update_inventory
    simp +decide [runItems, parseQ, h]
  refine ⟨by rw [hrun], ?_, by rw [hrun]⟩
  rw [hrun]
  exact updateRow_quantity

/-- Witness for C2 at the spec's instance: USE of 5 on telur stored with
quantity 3 commits quantity 0 and logs −5. -/
theorem use_clamps_witness :
    lookupQty [⟨"telur", 3, "butir", 0, "a"⟩] (strLower "telur") = some 3 ∧
    ((update_inventory "USE" [⟨"telur", .num 5, "butir"⟩] "budi"
        ⟨[⟨"telur", 3, "butir", 0, "a"⟩], []⟩ true 1 none).1 = .ok true ∧
      (∀ row ∈ (update_inventory "USE" [⟨"telur", .num 5, "butir"⟩] "budi"
          ⟨[⟨"telur", 3, "butir", 0, "a"⟩], []⟩ true 1 none).2.inventory,
        row.item_name = strLower "telur" → row.quantity = max 0 (3 - 5)) ∧
      (update_inventory "USE" [⟨"telur", .num 5, "butir"⟩] "budi"
          ⟨[⟨"telur", 3, "butir", 0, "a"⟩], []⟩ true 1 none).2.log =
        [] ++ [logRow (strLower "telur") (-5) "budi" 1]) ∧
    (update_inventory "USE" [⟨"telur", .num 5, "butir"⟩] "budi"
        ⟨[⟨"telur", 3, "butir", 0, "a"⟩], []⟩ true 1 none).2 =
      ⟨[⟨"telur", 0, "butir", 1, "budi"⟩], [⟨"telur", -5, "budi", 1⟩]⟩ :=
  ⟨by decide,
   use_clamps_quantity_and_logs_requested "telur" "butir" "budi" 5 3
     ⟨[⟨"telur", 3, "butir", 0, "a"⟩], []⟩ 1 (by decide),
   by simp +decide [update_inventory, runItems, hits, parseQ, strLower,
     strUpper, lookupQty, updateRow, logRow, List.find?]⟩

/-- C4 counterexample: with the connection up and no storage fault at
all, a batch whose quantity field `float` cannot parse makes
`update_inventory` end in a propagated exception — it does not return
`True`, although no storage-layer error occurred. -/
theorem update_inventory_return_policy_cex :
    (update_inventory "ADD" [⟨"gula", .bad, "kg"⟩] "u" ⟨[], []⟩ true 0
      none).1 = .pyError ∧
    (update_inventory "ADD" [⟨"gula", .bad, "kg"⟩] "u" ⟨[], []⟩ true 0
      none).1 ≠ .ok true :=
  ⟨rfl, by decide⟩

/-- C4 (amended): `update_inventory` returns `False` only on a
storage-layer error (a failed connection or a faulting operation: with
the connection up and no fault it never returns `False`); storage errors
are converted to the boolean result and never propagate (on a batch
whose quantities parse, the outcome is never an exception); and with no
storage error a batch whose quantities parse returns `True` — but a
batch with an unparseable quantity ends in a propagated non-storage
exception rather than returning `True`. -/
theorem update_inventory_return_policy (action user : String)
    (items : List Item) (s : DBState) (connOk : Bool) (now : ℕ)
    (failAt : Fault) :
    (connOk = false →
      update_inventory action items user s connOk now failAt =
        (.ok false, s)) ∧
    ((∀ it ∈ items, parseQ it.quantity ≠ none) →
      (update_inventory action items user s connOk now failAt).1 ≠
        .pyError) ∧
    (connOk = true → failAt = none →
      (update_inventory action items user s connOk now failAt).1 ≠
        .ok false) ∧
    (connOk = true → failAt = none →
      (∀ it ∈ items, parseQ it.quantity ≠ none) →
      (update_inventory action items user s connOk now failAt).1 =
        .ok true) := by
  refine ⟨?_, fun hall => update_no_py action user items s connOk now failAt hall,
    ?_, ?_⟩
  · rintro rfl; rfl
  · rintro rfl rfl; exact update_none_not_false action user items s now
  · rintro rfl rfl hall; exact update_none_ok action user items s now hall

/-- Witness for C4: a USE whose only item is absent from the store is
skipped, and the call still returns `True`. -/
theorem update_inventory_return_policy_witness :
    (∀ it ∈ [(⟨"telur", .num 1, "butir"⟩ : Item)], parseQ it.quantity ≠ none) ∧
    (update_inventory "USE" [⟨"telur", .num 1, "butir"⟩] "u" ⟨[], []⟩ true 0
        none).1 ≠ .pyError ∧
    (update_inventory "USE" [⟨"telur", .num 1, "butir"⟩] "u" ⟨[], []⟩ true 0
        none).1 = .ok true :=
  ⟨by decide,
   (update_inventory_return_policy "USE" "u" [⟨"telur", .num 1, "butir"⟩]
      ⟨[], []⟩ true 0 none).2.1 (by decide),
   (update_inventory_return_policy "USE" "u" [⟨"telur", .num 1, "butir"⟩]
      ⟨[], []⟩ true 0 none).2.2.2 rfl rfl (by decide)⟩

/-- C5 counterexample: an ADD whose single item has a malformed quantity
is not coerced to `0` and processed — the call raises (a propagated
exception) and commits nothing, rather than continuing. -/
theorem malformed_quantity_cex :
    update_inventory "ADD" [⟨"gula pasir", .bad, "kg"⟩] "andi" ⟨[], []⟩
      true 7 none = (.pyError, ⟨[], []⟩) := rfl

/-- C5 (amended): a missing quantity field is treated as `0` — the call
behaves exactly as if the quantity were `0` — but a malformed
(unparseable) quantity is not coerced: `float` raises, the exception
propagates past the `sqlite3.Error` handler with nothing committed,
whatever the remaining items and the fault schedule. -/
theorem quantity_lenient_policy (action name unit user : String)
    (rest : List Item) (s : DBState) (connOk : Bool) (now : ℕ)
    (failAt : Fault) :
    (update_inventory action (⟨name, .absent, unit⟩ :: rest) user s connOk
        now failAt =
      update_inventory action (⟨name, .num 0, unit⟩ :: rest) user s connOk
        now failAt) ∧
    (update_inventory action (⟨name, .bad, unit⟩ :: rest) user s true now
        failAt = (.pyError, s)) :=
  ⟨rfl, rfl⟩

/-- A batch item whose quantity is a literal non-negative number
satisfies `itemOK`. -/
theorem itemOK_num {nm u : String} {q : ℚ} (h : 0 ≤ q) :
    itemOK ⟨nm, .num q, u⟩ := by
  intro q' hq'
  simp [parseQ] at hq'
  rwa [← hq']

/-- One call preserves non-negativity of every stored quantity. -/
theorem runCall_nonneg (c : Call) (s : DBState) (hs : NonNeg s)
    (hc : callOK c) : NonNeg (runCall c s) := by
  cases c with
  | upd a its u ck n f =>
    simp only [runCall]
    rcases update_state_cases a u its s ck n f with hcase | hcase
    · rwa [hcase]
    · exact applyItems_nonneg hc hcase hs
  | clear u ck n f =>
    simp only [runCall]
    rcases clear_state_cases u s ck n f with hcase | hcase
    · rwa [hcase]
    · intro r hr
      rw [hcase] at hr
      simp at hr

/-- C3: across any sequence of `update_inventory` and
`clear_all_inventory` calls whose batch quantities are non-negative,
every quantity persisted in the inventory table stays non-negative: USE
clamps at zero and no operation writes a negative quantity. -/
theorem inventory_nonneg_invariant (cs : List Call) (s : DBState)
    (hs : NonNeg s) (hall : ∀ c ∈ cs, callOK c) :
    NonNeg (runCalls cs s) := by
  induction cs generalizing s with
  | nil => simpa [runCalls] using hs
  | cons c rest ih =>
    simp only [runCalls, List.foldl_cons]
    have h1 : NonNeg (runCall c s) := runCall_nonneg c s hs (hall c (by simp))
    have h2 : ∀ x ∈ rest, callOK x := fun x hx => hall x (by simp [hx])
    exact ih (runCall c s) h1 h2

/-- Witness for C3: an over-consuming USE after an ADD, then a clear,
leaves only non-negative quantities at every step's end. -/
theorem inventory_nonneg_invariant_witness :
    NonNeg ⟨[], []⟩ ∧
    (∀ c ∈ [Call.upd "ADD" [⟨"telur", .num 10, "butir"⟩] "andi" true 0 none,
            Call.upd "USE" [⟨"telur", .num 100, "butir"⟩] "citra" true 1 none,
            Call.clear "dewi" true 2 none], callOK c) ∧
    NonNeg (runCalls
      [Call.upd "ADD" [⟨"telur", .num 10, "butir"⟩] "andi" true 0 none,
       Call.upd "USE" [⟨"telur", .num 100, "butir"⟩] "citra" true 1 none,
       Call.clear "dewi" true 2 none] ⟨[], []⟩) := by
  have h1 : NonNeg (⟨[], []⟩ : DBState) := by
    intro r hr; simp at hr
  have h2 : ∀ c ∈ [Call.upd "ADD" [⟨"telur", .num 10, "butir"⟩] "andi" true 0 none,
      Call.upd "USE" [⟨"telur", .num 100, "butir"⟩] "citra" true 1 none,
      Call.clear "dewi" true 2 none], callOK c := by
    intro c hc
    simp only [List.mem_cons, List.not_mem_nil, or_false] at hc
    rcases hc with rfl | rfl | rfl
    · intro it hit
      simp only [List.mem_singleton] at hit
      subst hit
      exact itemOK_num (by norm_num)
    · intro it hit
      simp only [List.mem_singleton] at hit
      subst hit
      exact itemOK_num (by norm_num)
    · trivial
  exact ⟨h1, h2, inventory_nonneg_invariant _ _ h1 h2⟩

/-- C10: `update_inventory` leaves every inventory row whose name is not
among the batch's lowercased item names entirely unchanged, and it never
deletes a row: every row name present before the call is still present
after it (a fully consumed item keeps its zero-quantity row). -/
theorem update_inventory_frame (action user : String) (items : List Item)
    (s : DBState) (connOk : Bool) (now : ℕ) (failAt : Fault) :
    (∀ r ∈ s.inventory, r.item_name ∉ batchNames items →
      r ∈ (update_inventory action items user s connOk now failAt).2.inventory) ∧
    (∀ r ∈ s.inventory, ∃ r' ∈
      (update_inventory action items user s connOk now failAt).2.inventory,
      r'.item_name = r.item_name) := by
  rcases update_state_cases action user items s connOk now failAt with hc | hc
  · rw [hc]
    exact ⟨fun r hr _ => hr, fun r hr => ⟨r, hr, rfl⟩⟩
  · exact ⟨fun r hr hn => applyItems_frame hc r hr hn,
      fun r hr => applyItems_names hc r hr⟩

/-- Witness for C10: a USE consuming all telur leaves the beras row
untouched and keeps a telur row (with quantity zero) in place. -/
theorem update_inventory_frame_witness :
    ((⟨"beras", 5, "kg", 0, "x"⟩ : InvRow) ∈
      ([⟨"beras", 5, "kg", 0, "x"⟩, ⟨"telur", 2, "butir", 0, "x"⟩] :
        List InvRow) ∧
     "beras" ∉ batchNames [⟨"telur", .num 2, "butir"⟩] ∧
     (⟨"beras", 5, "kg", 0, "x"⟩ : InvRow) ∈
      (update_inventory "USE" [⟨"telur", .num 2, "butir"⟩] "u"
        ⟨[⟨"beras", 5, "kg", 0, "x"⟩, ⟨"telur", 2, "butir", 0, "x"⟩], []⟩
        true 1 none).2.inventory) ∧
    (∃ r' ∈ (update_inventory "USE" [⟨"telur", .num 2, "butir"⟩] "u"
        ⟨[⟨"beras", 5, "kg", 0, "x"⟩, ⟨"telur", 2, "butir", 0, "x"⟩], []⟩
        true 1 none).2.inventory,
      r'.item_name = "telur") ∧
    (update_inventory "USE" [⟨"telur", .num 2, "butir"⟩] "u"
        ⟨[⟨"beras", 5, "kg", 0, "x"⟩, ⟨"telur", 2, "butir", 0, "x"⟩], []⟩
        true 1 none).2.inventory =
      [⟨"beras", 5, "kg", 0, "x"⟩, ⟨"telur", 0, "butir", 1, "u"⟩] := by
  refine ⟨⟨by decide, by decide, ?_⟩, ?_, ?_⟩
  · exact (update_inventory_frame "USE" "u" [⟨"telur", .num 2, "butir"⟩]
      ⟨[⟨"beras", 5, "kg", 0, "x"⟩, ⟨"telur", 2, "butir", 0, "x"⟩], []⟩
      true 1 none).1 ⟨"beras", 5, "kg", 0, "x"⟩ (by decide) (by decide)
  · have h := (update_inventory_frame "USE" "u" [⟨"telur", .num 2, "butir"⟩]
      ⟨[⟨"beras", 5, "kg", 0, "x"⟩, ⟨"telur", 2, "butir", 0, "x"⟩], []⟩
      true 1 none).2 ⟨"telur", 2, "butir", 0, "x"⟩ (by decide)
    simpa using h
  · simp +decide [update_inventory, runItems, hits, parseQ, strLower,
      strUpper, lookupQty, updateRow, logRow, List.find?]

/-- C6 counterexample: with a positive-quantity row in the store, a
failed connection makes `query_all_inventory` return `[]` — exactly the
value an empty store returns — so a storage error is not distinguishable
from the empty sequence and the empty result does not occur only on
stores without positive rows. -/
theorem query_all_error_cex :
    (0:ℚ) < 5 ∧
    query_all_inventory ⟨[⟨"beras", 5, "kg", 0, "u"⟩], []⟩ false false = [] ∧
    query_all_inventory ⟨[], []⟩ true false = [] :=
  ⟨by norm_num, rfl, rfl⟩

/-- C6 (amended): on a working connection and query,
`query_all_inventory` returns exactly the positive-quantity rows, sorted
ascending by item name; but on a storage error (failed connection or
failed query) it returns `[]`, which is NOT distinguishable from the
empty store's result. -/
theorem query_all_spec (s : DBState) (connOk queryFails : Bool) :
    (connOk = false ∨ queryFails = true →
      query_all_inventory s connOk queryFails = []) ∧
    (connOk = true → queryFails = false →
      List.Sorted byName (query_all_inventory s connOk queryFails) ∧
      List.Perm (query_all_inventory s connOk queryFails)
        ((s.inventory.filter (fun r => 0 < r.quantity)).map
          (fun r => (r.item_name, r.quantity, r.unit)))) := by
  constructor
  · intro h
    rcases h with rfl | rfl
    · rfl
    · cases connOk <;> rfl
  · rintro rfl rfl
    constructor
    · exact List.sorted_insertionSort byName _
    · exact List.perm_insertionSort byName _

/-- Witness for C6: on a two-row store the result is sorted by name and
is a permutation of the positive rows. -/
theorem query_all_spec_witness :
    List.Sorted byName (query_all_inventory
      ⟨[⟨"telur", 2, "butir", 0, "u"⟩, ⟨"beras", 5, "kg", 0, "u"⟩], []⟩
      true false) ∧
    List.Perm (query_all_inventory
      ⟨[⟨"telur", 2, "butir", 0, "u"⟩, ⟨"beras", 5, "kg", 0, "u"⟩], []⟩
      true false)
      ((([⟨"telur", 2, "butir", 0, "u"⟩, ⟨"beras", 5, "kg", 0, "u"⟩] :
        List InvRow).filter (fun r => 0 < r.quantity)).map
        (fun r => (r.item_name, r.quantity, r.unit))) :=
  (query_all_spec ⟨[⟨"telur", 2, "butir", 0, "u"⟩, ⟨"beras", 5, "kg", 0, "u"⟩],
    []⟩ true false).2 rfl rfl

/-- C7: with a normalization function supplied and a non-empty set of
existing positive-quantity names, if some existing name normalizes to
the same string as the candidate, `find_similar_item` returns an
original existing name (unchanged, not the normalized string) whose
normalization matches the candidate's. -/
theorem find_similar_returns_existing (item_name : String)
    (f : String → String) (existing : List String)
    (hne : existing ≠ [])
    (hmatch : ∃ e ∈ existing, f e = f item_name) :
    find_similar_item item_name (some f) existing true ∈ existing ∧
    f (find_similar_item item_name (some f) existing true) = f item_name := by
  unfold find_similar_item
  simp only [Bool.not_true, Bool.false_eq_true, if_false]
  rw [if_neg (by simpa [List.isEmpty_iff] using hne)]
  cases hf : existing.find? (fun e => f e = f item_name) with
  | none =>
    rw [List.find?_eq_none] at hf
    obtain ⟨e, he, hfe⟩ := hmatch
    exact absurd hfe (by simpa using hf e he)
  | some e =>
    refine ⟨List.mem_of_find?_eq_some hf, ?_⟩
    have := List.find?_some hf
    simpa using this

/-- Witness for C7 at the spec's instance: with existing name "ayam" and
candidate "daging ayam" normalizing alike, the resolver returns the
stored spelling "ayam". -/
theorem find_similar_returns_existing_witness :
    (["ayam"] : List String) ≠ [] ∧
    (∃ e ∈ ["ayam"], (fun s => if s = "daging ayam" then "ayam" else s) e =
      (fun s => if s = "daging ayam" then "ayam" else s) "daging ayam") ∧
    (find_similar_item "daging ayam"
        (some (fun s => if s = "daging ayam" then "ayam" else s))
        ["ayam"] true ∈ ["ayam"] ∧
      (fun s => if s = "daging ayam" then "ayam" else s)
        (find_similar_item "daging ayam"
          (some (fun s => if s = "daging ayam" then "ayam" else s))
          ["ayam"] true) =
        (fun s => if s = "daging ayam" then "ayam" else s) "daging ayam") ∧
    find_similar_item "daging ayam"
      (some (fun s => if s = "daging ayam" then "ayam" else s))
      ["ayam"] true = "ayam" :=
  ⟨by decide, ⟨"ayam", by decide, by decide⟩,
   find_similar_returns_existing "daging ayam"
     (fun s => if s = "daging ayam" then "ayam" else s) ["ayam"]
     (by decide) ⟨"ayam", by decide, by decide⟩,
   by decide⟩

/-- C8 counterexample: with an empty store and a normalizer supplied,
`find_similar_item` returns the lowercased (and untrimmed) candidate,
not the normalized candidate. -/
theorem find_similar_new_name_cex :
    find_similar_item " Ayam " (some (fun _ => "chicken")) [] true =
      " ayam " ∧
    (" ayam " : String) ≠ "chicken" :=
  ⟨rfl, by decide⟩

/-- C8 (amended): when no existing name matches, `find_similar_item`
returns the normalized candidate only when a normalizer is supplied and
the set of existing positive-quantity names is non-empty; with an empty
existing set it returns the lowercased candidate even when a normalizer
is supplied, and with no normalizer and no case-insensitive match it
returns the lowercased (not trimmed) candidate. -/
theorem find_similar_new_canonical (item_name : String)
    (existing : List String) :
    (∀ nf, existing = [] →
      find_similar_item item_name nf existing true = strLower item_name) ∧
    (∀ f, existing ≠ [] → (∀ e ∈ existing, f e ≠ f item_name) →
      find_similar_item item_name (some f) existing true = f item_name) ∧
    (existing ≠ [] → (∀ e ∈ existing, strLower item_name ≠ strLower e) →
      find_similar_item item_name none existing true = strLower item_name) := by
  refine ⟨?_, ?_, ?_⟩
  · rintro nf rfl
    cases nf <;> rfl
  · intro f hne hno
    unfold find_similar_item
    simp only [Bool.not_true, Bool.false_eq_true, if_false]
    rw [if_neg (by simpa [List.isEmpty_iff] using hne)]
    have hf : existing.find? (fun e => f e = f item_name) = none :=
      List.find?_eq_none.mpr (by intro e he; simpa using hno e he)
    rw [hf]
  · intro hne hno
    unfold find_similar_item
    simp only [Bool.not_true, Bool.false_eq_true, if_false]
    rw [if_neg (by simpa [List.isEmpty_iff] using hne)]
    have hf : existing.find? (fun e => strLower item_name = strLower e) = none :=
      List.find?_eq_none.mpr (by intro e he; simpa using hno e he)
    rw [hf]

/-- Witness for C8: the empty-store case, the normalizer no-match case
and the no-normalizer no-match case at concrete names. -/
theorem find_similar_new_canonical_witness :
    find_similar_item " Ayam " (some (fun s => s)) [] true =
      strLower " Ayam " ∧
    (∀ e ∈ ["daging sapi"], strLower e ≠ strLower "Telur") ∧
    find_similar_item "Telur" (some (fun s => strLower s)) ["daging sapi"]
      true = strLower "Telur" ∧
    find_similar_item "Telur" none ["daging sapi"] true =
      strLower "Telur" :=
  ⟨(find_similar_new_canonical " Ayam " []).1 (some (fun s => s)) rfl,
   by decide,
   (find_similar_new_canonical "Telur" ["daging sapi"]).2.1
     (fun s => strLower s) (by decide) (by decide),
   (find_similar_new_canonical "Telur" ["daging sapi"]).2.2
     (by decide) (by decide)⟩

/-- C9: `clear_all_inventory` with no positive-quantity rows returns
`True` immediately with no log writes; otherwise, in one unit of work,
it appends exactly one log row per positive-quantity row recording the
negated old quantity and removes every inventory row, returning `True`;
it returns `False` only on a storage error, rolling the whole batch
back. -/
theorem clear_all_correct (user : String) (s : DBState) (now : ℕ) :
    ((s.inventory.filter (fun r => 0 < r.quantity)).isEmpty = true →
      clear_all_inventory user s true now none = (true, s)) ∧
    ((s.inventory.filter (fun r => 0 < r.quantity)).isEmpty = false →
      clear_all_inventory user s true now none =
        (true, ⟨[], s.log ++
          (s.inventory.filter (fun r => 0 < r.quantity)).map
            (fun r => logRow r.item_name (-r.quantity) user now)⟩)) ∧
    (∀ connOk failAt,
      (clear_all_inventory user s connOk now failAt).1 = false →
      (clear_all_inventory user s connOk now failAt).2 = s) ∧
    (∀ failAt, clear_all_inventory user s false now failAt = (false, s)) := by
  refine ⟨?_, ?_, fun ck f => clear_false_state user s ck now f, fun f => rfl⟩
  · intro he
    rw [clear_none_spec, if_pos he]
  · intro he
    rw [clear_none_spec, if_neg (by simp [he])]

/-- Witness for C9 at the spec's instance: clearing a store holding only
beras 5 kg leaves no inventory row and adds the single log row −5. -/
theorem clear_all_correct_witness :
    (([(⟨"beras", 5, "kg", 0, "x"⟩ : InvRow)].filter
      (fun r => 0 < r.quantity)).isEmpty = false) ∧
    clear_all_inventory "ani" ⟨[⟨"beras", 5, "kg", 0, "x"⟩], []⟩ true 3
      none = (true, ⟨[], [⟨"beras", -5, "ani", 3⟩]⟩) := by
  refine ⟨by decide, ?_⟩
  have h := (clear_all_correct "ani" ⟨[⟨"beras", 5, "kg", 0, "x"⟩], []⟩ 3).2.1
    (by decide)
  rw [h]
  simp +decide [logRow]
